import Mathlib

/-!
# Verification of `src/json_schema_operations.py`

Shallow embedding of the repository's single source file.  The Python module
defines two functions:

* `change_encoding(jsonObject, encoding)` — recursively re-encodes every string
  (dictionary keys and values, list elements, string leaves) of a parsed JSON
  structure; non-string terminals pass through unchanged.
* `extract_schema_defaults(schema, newEncoding, externalRefLoc)` — walks the
  `properties` mapping of a JSON schema, resolves `$ref` indirections (local
  `#/...` pointers against the schema object passed into the current call, or
  `file:...` pointers against the file system), dispatches on each resolved
  node's `type`, and accumulates a defaults document together with a
  found-flag.  The object branch mutates the caller's schema in place
  (`schema["properties"] = j["properties"]`) before recursing.

Modelling decisions, each matching the source:

* JSON values are the inductive `JsonVal`; Python `None` is `JsonVal.null`
  (this is what `json.load` produces for JSON `null`).
* Python dictionaries are association lists in insertion order; assignment
  (`d[k] = v`) replaces the value of the first matching key in place or
  appends, and `d.get(k)` returns the first match or `None`.
* Exceptions are modelled with `Except PyErr`: `.get`/`.keys`/`.items` on a
  non-dictionary raise `AttributeError`; `d[k]` with a missing key raises
  `KeyError`; item assignment on a non-dictionary raises `TypeError`; a
  failed `open`/`json.load` of an external file raises an I/O-class error.
* The in-place mutation of the shared schema object is modelled by threading
  the schema value through the recursion: `extractAux` returns the final
  state of the (single, shared) schema object along with the result pair.
  All recursive calls of the source receive the very same object, so one
  threaded value is a faithful rendering for tree-shaped (JSON-parsed) data.
* Recursion is bounded by explicit fuel (`none` = fuel exhausted); the Python
  original can genuinely diverge on self-referencing pointer layouts, and the
  claims only concern calls that return.
* `str.encode` in the re-encoder is modelled by an abstract text-to-text
  function `enc`, i.e. the Python 2 behaviour the helper's docstring targets,
  where an encoded string is again a string.
* `os.path.normpath` is modelled as the identity (the claims involve only
  already-normal paths), `os.sep` is `"/"` (POSIX), and `os.path.join` with
  relative segments is string concatenation with `"/"`.  Files are a finite
  association list from joined path to the parsed JSON document; a missing
  or unparsable file is an absent entry (both abort the call).
-/

/-- A parsed JSON value (the result of Python's `json.load`).  Python `None`
is `null`. -/
inductive JsonVal : Type where
  | null : JsonVal
  | bool (b : Bool) : JsonVal
  | num (n : Int) : JsonVal
  | str (s : String) : JsonVal
  | arr (elems : List JsonVal) : JsonVal
  | obj (fields : List (String × JsonVal)) : JsonVal
deriving Repr

/-- Python `v == "s"` for a string literal `"s"` (the comparisons the source
makes against type names): true exactly on the equal string. -/
def isStrEq (v : JsonVal) (s : String) : Bool :=
  match v with
  | .str t => decide (t = s)
  | _ => false

/-- Python `v is None` (JSON `null`). -/
def isNull : JsonVal → Bool
  | .null => true
  | _ => false

/-- The Python exception classes that the source can raise, collapsed to the
class level (messages are irrelevant to the claims). -/
inductive PyErr : Type where
  | attributeError : PyErr
  | keyError : PyErr
  | typeError : PyErr
  | ioError : PyErr
deriving DecidableEq, Repr

/-- First-match association-list lookup: Python `d.get(k)` restricted to a
dictionary's entry list (`none` when the key is absent). -/
def lookupField : List (String × JsonVal) → String → Option JsonVal
  | [], _ => none
  | (k, v) :: rest, key => if k = key then some v else lookupField rest key

/-- Python dictionary item assignment `d[k] = v`: replace the value of the
first matching key in place, otherwise append the new pair. -/
def dictSet : List (String × JsonVal) → String → JsonVal → List (String × JsonVal)
  | [], k, v => [(k, v)]
  | (k0, v0) :: rest, k, v =>
      if k0 = k then (k0, v) :: rest else (k0, v0) :: dictSet rest k v

/-- Python truthiness of a JSON value: `None`, `False`, `0`, `""`, `[]` and
`{}` are falsy, everything else is truthy. -/
def truthy : JsonVal → Bool
  | .null => false
  | .bool b => b
  | .num n => decide (n ≠ 0)
  | .str s => decide (s ≠ "")
  | .arr [] => false
  | .arr (_ :: _) => true
  | .obj [] => false
  | .obj (_ :: _) => true

/-- Python `j.get(k)` (with the default `None`): on a dictionary, the stored
value or `None`; on anything else, `AttributeError`. -/
def pyGet (j : JsonVal) (k : String) : Except PyErr JsonVal :=
  match j with
  | .obj fs => .ok ((lookupField fs k).getD .null)
  | _ => .error .attributeError

/-- Python `j[k]` subscription: on a dictionary, the stored value or
`KeyError`; on anything else, `TypeError`. -/
def pyIndex (j : JsonVal) (k : String) : Except PyErr JsonVal :=
  match j with
  | .obj fs =>
      match lookupField fs k with
      | some v => .ok v
      | none => .error .keyError
  | _ => .error .typeError

/-- Python `j[k] = v` item assignment: allowed on dictionaries only. -/
def pySetItem (j : JsonVal) (k : String) (v : JsonVal) : Except PyErr JsonVal :=
  match j with
  | .obj fs => .ok (.obj (dictSet fs k v))
  | _ => .error .typeError

/-- One step of the source's local-pointer walk, the lambda given to `reduce`:
`lambda d, key: d.get(key) if d else None`.  A falsy accumulator yields
`None`; a truthy one is sent through `.get` (raising `AttributeError` when it
is not a dictionary). -/
def refStep (d : JsonVal) (key : String) : Except PyErr JsonVal :=
  if truthy d then pyGet d key else .ok .null

/-- The full `reduce` over the pointer segments, starting from the schema
object passed into the current call. -/
def refWalk : List String → JsonVal → Except PyErr JsonVal
  | [], d => .ok d
  | key :: rest, d =>
      match refStep d key with
      | .error e => .error e
      | .ok d2 => refWalk rest d2

mutual
/-- The function `change_encoding`: recursively re-encode every string of a JSON structure
with the text-encoding function `enc`; dictionaries re-encode keys and
values, lists re-encode elements, non-string terminals pass through. -/
def change_encoding (enc : String → String) : JsonVal → JsonVal
  | .obj fs => .obj (encodeFields enc fs)
  | .arr l => .arr (encodeList enc l)
  | .str s => .str (enc s)
  | .null => .null
  | .bool b => .bool b
  | .num n => .num n

/-- Entry list of a dictionary under `change_encoding`. -/
def encodeFields (enc : String → String) : List (String × JsonVal) → List (String × JsonVal)
  | [] => []
  | (k, v) :: rest => (enc k, change_encoding enc v) :: encodeFields enc rest

/-- Element list of a JSON array under `change_encoding`. -/
def encodeList (enc : String → String) : List JsonVal → List JsonVal
  | [] => []
  | v :: rest => change_encoding enc v :: encodeList enc rest
end

/-- Splitting a character list at every occurrence of the separator, keeping
empty pieces (the behaviour of Python's `str.split(sep)`); `acc` holds the
characters of the current piece in reverse. -/
def splitCharsAux (sep : Char) : List Char → List Char → List (List Char)
  | [], acc => [acc.reverse]
  | c :: rest, acc =>
      if c = sep then acc.reverse :: splitCharsAux sep rest []
      else splitCharsAux sep rest (c :: acc)

/-- Python `s.split(sep)` for a one-character separator (the source splits on
`"/"` and on `os.sep`, which is `"/"` on POSIX). -/
def pySplit (sep : Char) (s : String) : List String :=
  (splitCharsAux sep s.data []).map (fun cs => String.mk cs)

/-- Whether the first character list is an initial segment of the second. -/
def charsStartWith : List Char → List Char → Bool
  | [], _ => true
  | _ :: _, [] => false
  | p :: ps, c :: cs => decide (p = c) && charsStartWith ps cs

/-- Python `s.startswith(pre)`. -/
def pyStartsWith (s pre : String) : Bool :=
  charsStartWith pre.data s.data

/-- Python slicing `s[n:]`. -/
def pyDrop (n : Nat) (s : String) : String :=
  String.mk (s.data.drop n)

/-- Python `os.path.join(base, *segs)` for relative segments on POSIX. -/
def joinPath (base : String) (segs : List String) : String :=
  segs.foldl (fun acc s => acc ++ "/" ++ s) base

/-- The ambient environment of a call to `extract_schema_defaults`: the file
system visible to external references, the working directory, the encoding
argument (`useEnc` is the truthiness of `newEncoding`, `enc` the encode
function it denotes), and the optional `externalRefLoc`. -/
structure Env : Type where
  files : List (String × JsonVal)
  cwd : String
  enc : String → String
  useEnc : Bool
  externalRefLoc : Option String

/-- Lines 96–120 of the source: replace a property node `j` carrying a
`$ref` by the referenced element.  A `file:` reference loads (and, when the
encoding argument is truthy, re-encodes) the external document; any other
reference is walked as a local pointer from the schema object of the current
call.  A node without `$ref` is returned unchanged; a non-dictionary node
fails at `j.keys()`, and a non-string `$ref` value fails at `.startswith`. -/
def resolveNode (env : Env) (schema j : JsonVal) : Except PyErr JsonVal :=
  match j with
  | .obj fs =>
      match lookupField fs "$ref" with
      | none => .ok (.obj fs)
      | some refVal =>
          match refVal with
          | .str defPath =>
              if pyStartsWith defPath "file:" then
                let segs := pySplit '/' (pyDrop 5 defPath)
                let base :=
                  match env.externalRefLoc with
                  | some b => b
                  | none => env.cwd
                match lookupField env.files (joinPath base segs) with
                | some content =>
                    .ok (if env.useEnc then change_encoding env.enc content else content)
                | none => .error .ioError
              else
                refWalk ((pySplit '/' defPath).drop 1) schema
          | _ => .error .attributeError
  | _ => .error .attributeError

/-- The two call shapes of the interpreter: a fresh invocation of
`extract_schema_defaults` on a schema, or the `for i, j in iteritems(...)`
loop part-way through its captured property list, carrying the current
(possibly already mutated) schema object and the accumulators
`schemaDefaults` / `defaultsFound`. -/
inductive ECall : Type where
  | top (schema : JsonVal) : ECall
  | loop (props : List (String × JsonVal)) (schema : JsonVal)
      (defs : List (String × JsonVal)) (found : Bool) : ECall

/-- A normal return of `extract_schema_defaults`: the defaults document, the
found-flag, and the final state of the shared (mutated) schema object. -/
abbrev ExtractResult := Except PyErr (List (String × JsonVal) × Bool × JsonVal)

/-- Fuel-bounded interpreter for `extract_schema_defaults` (lines 90–143).
`none` means the fuel ran out; `some r` is the Python outcome (normal return
or raised exception).  The `.top` case reads `schema.get("properties")` and
starts the loop with fresh accumulators; the `.loop` case processes one
property exactly as lines 96–141: resolve `$ref`, read `.type`, and dispatch
to the object / basic / null / skip branch, threading the shared schema
object (mutated in the object branch before recursing). -/
def extractAux (env : Env) : Nat → ECall → Option ExtractResult
  | 0, _ => none
  | fuel + 1, .top schema =>
      match pyGet schema "properties" with
      | .error e => some (.error e)
      | .ok props =>
          match props with
          | .obj fields => extractAux env fuel (.loop fields schema [] false)
          | _ => some (.error .attributeError)
  | _ + 1, .loop [] schema defs found => some (.ok (defs, found, schema))
  | fuel + 1, .loop ((i, j) :: rest) schema defs found =>
      match resolveNode env schema j with
      | .error e => some (.error e)
      | .ok jr =>
          match pyGet jr "type" with
          | .error e => some (.error e)
          | .ok et =>
              if isStrEq et "object" then
                match pyIndex jr "properties" with
                | .error e => some (.error e)
                | .ok p =>
                    match pySetItem schema "properties" p with
                    | .error e => some (.error e)
                    | .ok schema1 =>
                        match extractAux env fuel (.top schema1) with
                        | none => none
                        | some (.error e) => some (.error e)
                        | some (.ok (eds, de, schema2)) =>
                            if de then
                              extractAux env fuel
                                (.loop rest schema2 (dictSet defs i (.obj eds)) true)
                            else
                              extractAux env fuel (.loop rest schema2 defs found)
              else if isStrEq et "array" || isStrEq et "boolean" || isStrEq et "integer"
                  || isStrEq et "number" || isStrEq et "string" then
                match pyGet jr "default" with
                | .error e => some (.error e)
                | .ok d =>
                    if isNull d then
                      extractAux env fuel (.loop rest schema defs found)
                    else
                      extractAux env fuel (.loop rest schema (dictSet defs i d) true)
              else if isStrEq et "null" then
                extractAux env fuel (.loop rest schema (dictSet defs i .null) true)
              else
                extractAux env fuel (.loop rest schema defs found)

/-- The function `extract_schema_defaults(schema, newEncoding, externalRefLoc)` with the
given fuel bound. -/
def extract_schema_defaults (env : Env) (fuel : Nat) (schema : JsonVal) :
    Option ExtractResult :=
  extractAux env fuel (.top schema)

/-! ## Spec-side vocabulary

Definitions used to state the claims: readers for a node's declared type and
explicit default, the child properties of an object node, and predicates for
"contributes a default" (the amended C1 invariant) and for the wording of the
original C1 claim. -/

/-- The declared type of a schema node, when it is a dictionary whose `type`
entry is a string; `none` otherwise (missing type, non-string type, or a
non-dictionary node). -/
def getTypeStr (j : JsonVal) : Option String :=
  match j with
  | .obj fs =>
      match lookupField fs "type" with
      | some (.str s) => some s
      | _ => none
  | _ => none

/-- The basic (non-object, non-null) type names of the source's dispatch. -/
def basicTypeNames : List String :=
  ["array", "boolean", "integer", "number", "string"]

/-- Whether a node carries an explicit default: a `default` key whose value
is not `null`.  (The source's presence test `j.get("default", None) is not
None`.) -/
def hasExplicitDefault (j : JsonVal) : Bool :=
  match j with
  | .obj fs =>
      match lookupField fs "default" with
      | some v => !(isNull v)
      | none => false
  | _ => false

/-- The child properties of a node: the entry list of its `properties`
dictionary, or `[]` when absent or not a dictionary. -/
def children (j : JsonVal) : List (String × JsonVal) :=
  match j with
  | .obj fs =>
      match lookupField fs "properties" with
      | some (.obj cs) => cs
      | _ => []
  | _ => []

/-- A resolved node contributes a default entry: it is typed `null`; or it
has a basic type and an explicit non-null default; or it is typed `object`
and some child property contributes. -/
inductive Contributes : JsonVal → Prop where
  | nullType (j : JsonVal) :
      getTypeStr j = some "null" → Contributes j
  | basicDefault (j : JsonVal) (t : String) :
      getTypeStr j = some t → t ∈ basicTypeNames → hasExplicitDefault j = true →
      Contributes j
  | objectChild (j : JsonVal) (name : String) (c : JsonVal) :
      getTypeStr j = some "object" → (name, c) ∈ children j → Contributes c →
      Contributes j

/-- Some property node strictly below `j` (reachable through `properties`
nesting) carries an explicit non-null default. -/
inductive HasDescDefault : JsonVal → Prop where
  | here (j : JsonVal) (name : String) (c : JsonVal) :
      (name, c) ∈ children j → hasExplicitDefault c = true → HasDescDefault j
  | deeper (j : JsonVal) (name : String) (c : JsonVal) :
      (name, c) ∈ children j → HasDescDefault c → HasDescDefault j

/-- The membership condition asserted by claim C1, read off its wording: the
property's resolved node is typed `null`; or it is typed `object` and some
descendant property has an explicit default; or (any other type) the node
itself has an explicit default. -/
def ClaimC1cond (j : JsonVal) : Prop :=
  getTypeStr j = some "null" ∨
  (getTypeStr j = some "object" ∧ HasDescDefault j) ∨
  (getTypeStr j ≠ some "object" ∧ hasExplicitDefault j = true)

mutual
/-- No dictionary anywhere inside the value carries a `$ref` key, so every
property node resolves to itself. -/
def refFreeVal : JsonVal → Bool
  | .obj fs => refFreeFields fs
  | .arr l => refFreeList l
  | _ => true

/-- Conjunction of `refFreeVal` over a dictionary's entry list, also requiring
that no key is `$ref`. -/
def refFreeFields : List (String × JsonVal) → Bool
  | [] => true
  | (k, v) :: rest => decide (k ≠ "$ref") && refFreeVal v && refFreeFields rest

/-- Conjunction of `refFreeVal` over an array's element list. -/
def refFreeList : List JsonVal → Bool
  | [] => true
  | v :: rest => refFreeVal v && refFreeList rest
end

/-! ## Basic lemmas about the dictionary model -/

theorem isStrEq_iff (v : JsonVal) (s : String) : isStrEq v s = true ↔ v = .str s := by
  cases v <;> simp [isStrEq]

theorem isNull_iff (v : JsonVal) : isNull v = true ↔ v = .null := by
  cases v <;> simp [isNull]

theorem lookup_dictSet_self (fs : List (String × JsonVal)) (k : String) (v : JsonVal) :
    lookupField (dictSet fs k v) k = some v := by
  induction fs with
  | nil => simp [dictSet, lookupField]
  | cons hd tl ih =>
      obtain ⟨k0, v0⟩ := hd
      by_cases h : k0 = k
      · simp [dictSet, h, lookupField]
      · simp [dictSet, h, lookupField, ih]

theorem lookup_dictSet_ne (fs : List (String × JsonVal)) (k k' : String) (v : JsonVal)
    (h : k' ≠ k) : lookupField (dictSet fs k v) k' = lookupField fs k' := by
  induction fs with
  | nil => simp [dictSet, lookupField, Ne.symm h]
  | cons hd tl ih =>
      obtain ⟨k0, v0⟩ := hd
      by_cases h0 : k0 = k
      · subst h0
        simp [dictSet, lookupField, Ne.symm h]
      · by_cases h1 : k0 = k'
        · subst h1
          simp [dictSet, h0, lookupField]
        · simp [dictSet, h0, lookupField, h1, ih]

theorem dictSet_ne_nil (fs : List (String × JsonVal)) (k : String) (v : JsonVal) :
    dictSet fs k v ≠ [] := by
  cases fs with
  | nil => simp [dictSet]
  | cons hd tl =>
      obtain ⟨k0, v0⟩ := hd
      by_cases h : k0 = k <;> simp [dictSet, h]

theorem lookupField_isSome_dictSet (fs : List (String × JsonVal)) (k name : String)
    (v : JsonVal) :
    (lookupField (dictSet fs k v) name).isSome = true ↔
      name = k ∨ (lookupField fs name).isSome = true := by
  by_cases h : name = k
  · subst h
    simp [lookup_dictSet_self]
  · simp [lookup_dictSet_ne fs k name v h, h]

theorem lookupField_mem {fs : List (String × JsonVal)} {k : String} {v : JsonVal}
    (h : lookupField fs k = some v) : (k, v) ∈ fs := by
  induction fs with
  | nil => simp [lookupField] at h
  | cons hd tl ih =>
      obtain ⟨k0, v0⟩ := hd
      by_cases h0 : k0 = k
      · subst h0
        simp [lookupField] at h
        simp [h]
      · simp [lookupField, h0] at h
        exact List.mem_cons_of_mem _ (ih h)

/-! ## Lemmas about ref-freeness and resolution -/

theorem refFreeFields_head_ne {k : String} {v : JsonVal}
    {rest : List (String × JsonVal)} (h : refFreeFields ((k, v) :: rest) = true) :
    k ≠ "$ref" ∧ refFreeVal v = true ∧ refFreeFields rest = true := by
  simp [refFreeFields] at h
  exact ⟨h.1.1, h.1.2, h.2⟩

theorem refFreeFields_mem {fs : List (String × JsonVal)} {k : String} {v : JsonVal}
    (hfs : refFreeFields fs = true) (h : (k, v) ∈ fs) : refFreeVal v = true := by
  induction fs with
  | nil => simp at h
  | cons hd tl ih =>
      obtain ⟨k0, v0⟩ := hd
      obtain ⟨hne, hv, htl⟩ := refFreeFields_head_ne hfs
      rcases List.mem_cons.mp h with h | h
      · cases h
        exact hv
      · exact ih htl h

theorem refFreeFields_lookup {fs : List (String × JsonVal)} {k : String} {v : JsonVal}
    (hfs : refFreeFields fs = true) (h : lookupField fs k = some v) :
    refFreeVal v = true :=
  refFreeFields_mem hfs (lookupField_mem h)

theorem refFreeFields_no_ref {fs : List (String × JsonVal)}
    (hfs : refFreeFields fs = true) : lookupField fs "$ref" = none := by
  induction fs with
  | nil => rfl
  | cons hd tl ih =>
      obtain ⟨k0, v0⟩ := hd
      obtain ⟨hne, hv, htl⟩ := refFreeFields_head_ne hfs
      simp [lookupField, hne, ih htl]

theorem resolveNode_refFree (env : Env) (schema : JsonVal)
    {fs : List (String × JsonVal)} (h : refFreeVal (.obj fs) = true) :
    resolveNode env schema (.obj fs) = .ok (.obj fs) := by
  have hfs : refFreeFields fs = true := by simpa [refFreeVal] using h
  simp [resolveNode, refFreeFields_no_ref hfs]

theorem resolveNode_refFree_eq {env : Env} {schema j jr : JsonVal}
    (hrf : refFreeVal j = true) (h : resolveNode env schema j = .ok jr) : jr = j := by
  cases j with
  | obj fs =>
      rw [resolveNode_refFree env schema hrf] at h
      exact (Except.ok.injEq _ _).mp h.symm
  | null => simp [resolveNode] at h
  | bool b => simp [resolveNode] at h
  | num n => simp [resolveNode] at h
  | str s => simp [resolveNode] at h
  | arr l => simp [resolveNode] at h

theorem refFreeVal_children {j : JsonVal} (h : refFreeVal j = true) :
    ∀ kv ∈ children j, refFreeVal kv.2 = true := by
  intro kv hkv
  cases j with
  | obj fs =>
      have hfs : refFreeFields fs = true := by simpa [refFreeVal] using h
      unfold children at hkv
      rcases hp : lookupField fs "properties" with _ | p
      · simp [hp] at hkv
      · rcases p with _ | _ | _ | _ | _ | cs
        case obj =>
          simp [hp] at hkv
          have hcs : refFreeVal (.obj cs) = true := refFreeFields_lookup hfs hp
          have hcs2 : refFreeFields cs = true := by simpa [refFreeVal] using hcs
          obtain ⟨k1, v1⟩ := kv
          exact refFreeFields_mem hcs2 hkv
        all_goals simp [hp] at hkv
  | null => simp [children] at hkv
  | bool b => simp [children] at hkv
  | num n => simp [children] at hkv
  | str s => simp [children] at hkv
  | arr l => simp [children] at hkv

/-! ## Bridges between the interpreter's reads and the spec vocabulary -/

theorem pyGet_type_str {j : JsonVal} {t : String}
    (h : pyGet j "type" = .ok (.str t)) : getTypeStr j = some t := by
  cases j with
  | obj fs =>
      simp only [pyGet, Except.ok.injEq] at h
      rcases hl : lookupField fs "type" with _ | v
      · rw [hl] at h
        simp at h
      · rw [hl] at h
        simp at h
        subst h
        simp [getTypeStr, hl]
  | null => simp [pyGet] at h
  | bool b => simp [pyGet] at h
  | num n => simp [pyGet] at h
  | str s => simp [pyGet] at h
  | arr l => simp [pyGet] at h

theorem pyGet_default_null {fs : List (String × JsonVal)}
    (h : pyGet (.obj fs) "default" = .ok .null) :
    hasExplicitDefault (.obj fs) = false := by
  simp only [pyGet, Except.ok.injEq] at h
  rcases hl : lookupField fs "default" with _ | v
  · simp [hasExplicitDefault, hl]
  · rw [hl] at h
    simp at h
    subst h
    simp [hasExplicitDefault, hl, isNull]

theorem pyGet_default_some {fs : List (String × JsonVal)} {d : JsonVal}
    (h : pyGet (.obj fs) "default" = .ok d) (hd : d ≠ .null) :
    hasExplicitDefault (.obj fs) = true ∧ lookupField fs "default" = some d := by
  simp only [pyGet, Except.ok.injEq] at h
  rcases hl : lookupField fs "default" with _ | v
  · rw [hl] at h
    simp at h
    exact absurd h.symm hd
  · rw [hl] at h
    simp at h
    refine ⟨?_, by rw [h]⟩
    simp only [hasExplicitDefault, hl]
    rw [h]
    cases d with
    | null => exact absurd rfl hd
    | bool b => rfl
    | num n => rfl
    | str s => rfl
    | arr l => rfl
    | obj l => rfl

theorem basic_cond_iff (et : JsonVal) :
    (isStrEq et "array" || isStrEq et "boolean" || isStrEq et "integer" ||
      isStrEq et "number" || isStrEq et "string") = true ↔
    ∃ t, et = .str t ∧ t ∈ basicTypeNames := by
  cases et <;> simp [isStrEq, basicTypeNames]
  tauto

/-! ## One-step characterizations of the interpreter -/

/-- A normal return of a `.top` call reads an object-valued `properties`
entry and is the result of the loop started on its entry list with fresh
accumulators. -/
theorem top_cases {env : Env} {fuel : Nat} {schema : JsonVal}
    {R : List (String × JsonVal) × Bool × JsonVal}
    (h : extractAux env fuel (.top schema) = some (.ok R)) :
    ∃ fuel2 fields, fuel = fuel2 + 1 ∧
      pyGet schema "properties" = .ok (.obj fields) ∧
      extractAux env fuel2 (.loop fields schema [] false) = some (.ok R) := by
  cases fuel with
  | zero => simp [extractAux] at h
  | succ fuel2 =>
      simp only [extractAux] at h
      rcases hg : pyGet schema "properties" with e | props
      · rw [hg] at h
        simp at h
      · rw [hg] at h
        cases props with
        | obj fields => exact ⟨fuel2, fields, rfl, rfl, h⟩
        | null => simp at h
        | bool b => simp at h
        | num n => simp at h
        | str s => simp at h
        | arr l => simp at h

/-- Exhaustive characterization of one loop iteration ending in a normal
return: `$ref` resolution succeeded and exactly one of the four dispatch
branches ran (object / basic type / null / silent skip), each with the
stated continuation of the loop. -/
theorem step_cases {env : Env} {fuel : Nat} {i : String} {j : JsonVal}
    {rest : List (String × JsonVal)} {schema : JsonVal}
    {defs : List (String × JsonVal)} {found : Bool}
    {R : List (String × JsonVal) × Bool × JsonVal}
    (h : extractAux env fuel (.loop ((i, j) :: rest) schema defs found) = some (.ok R)) :
    ∃ fuel2 jr, fuel = fuel2 + 1 ∧ resolveNode env schema j = .ok jr ∧
      ((∃ p schema1 eds de schema2,
          pyGet jr "type" = .ok (.str "object") ∧
          pyIndex jr "properties" = .ok p ∧
          pySetItem schema "properties" p = .ok schema1 ∧
          extractAux env fuel2 (.top schema1) = some (.ok (eds, de, schema2)) ∧
          ((de = true ∧
              extractAux env fuel2
                (.loop rest schema2 (dictSet defs i (.obj eds)) true) = some (.ok R)) ∨
            (de = false ∧
              extractAux env fuel2 (.loop rest schema2 defs found) = some (.ok R)))) ∨
        (∃ t d, pyGet jr "type" = .ok (.str t) ∧ t ∈ basicTypeNames ∧
          pyGet jr "default" = .ok d ∧
          ((d = .null ∧
              extractAux env fuel2 (.loop rest schema defs found) = some (.ok R)) ∨
            (d ≠ .null ∧
              extractAux env fuel2
                (.loop rest schema (dictSet defs i d) true) = some (.ok R)))) ∨
        (pyGet jr "type" = .ok (.str "null") ∧
          extractAux env fuel2
            (.loop rest schema (dictSet defs i .null) true) = some (.ok R)) ∨
        (∃ et, pyGet jr "type" = .ok et ∧
          isStrEq et "object" = false ∧
          (isStrEq et "array" || isStrEq et "boolean" || isStrEq et "integer" ||
            isStrEq et "number" || isStrEq et "string") = false ∧
          isStrEq et "null" = false ∧
          extractAux env fuel2 (.loop rest schema defs found) = some (.ok R))) := by
  cases fuel with
  | zero => simp [extractAux] at h
  | succ fuel2 =>
      simp only [extractAux] at h
      split at h
      next e heq => simp at h
      next jr heq =>
        refine ⟨fuel2, jr, rfl, heq, ?_⟩
        split at h
        next e hty => simp at h
        next et hty =>
          split at h
          next ho =>
            -- object branch
            left
            have hoeq : et = .str "object" := (isStrEq_iff et "object").mp ho
            split at h
            next e hpi => simp at h
            next p hpi =>
              split at h
              next e hsi => simp at h
              next schema1 hsi =>
                split at h
                next hin => simp at h
                next e hin => simp at h
                next eds de schema2 hin =>
                  refine ⟨p, schema1, eds, de, schema2, hoeq ▸ hty, hpi, hsi, hin, ?_⟩
                  split at h
                  next hde => exact Or.inl ⟨hde, h⟩
                  next hde => exact Or.inr ⟨Bool.eq_false_iff.mpr hde, h⟩
          next ho =>
            split at h
            next hb =>
              -- basic-type branch
              right; left
              obtain ⟨t, het, htmem⟩ := (basic_cond_iff et).mp hb
              split at h
              next e hdef => simp at h
              next d hdef =>
                refine ⟨t, d, het ▸ hty, htmem, hdef, ?_⟩
                split at h
                next hdn => exact Or.inl ⟨(isNull_iff d).mp hdn, h⟩
                next hdn =>
                  exact Or.inr ⟨fun hc => hdn ((isNull_iff d).mpr hc), h⟩
            next hb =>
              split at h
              next hn =>
                have hneq : et = .str "null" := (isStrEq_iff et "null").mp hn
                exact Or.inr (Or.inr (Or.inl ⟨hneq ▸ hty, h⟩))
              next hn =>
                exact Or.inr (Or.inr (Or.inr ⟨et, hty, Bool.eq_false_iff.mpr ho,
                  Bool.eq_false_iff.mpr hb, Bool.eq_false_iff.mpr hn, h⟩))

/-! ## Loop invariants -/

/-- Once `defaultsFound` is set it stays set for the rest of the loop. -/
theorem loop_found_mono (env : Env) : ∀ (fuel : Nat) (props : List (String × JsonVal))
    (schema : JsonVal) (defs fd : List (String × JsonVal)) (ff : Bool) (s' : JsonVal),
    extractAux env fuel (.loop props schema defs true) = some (.ok (fd, ff, s')) →
    ff = true := by
  intro fuel
  induction fuel with
  | zero =>
      intro props schema defs fd ff s' h
      simp [extractAux] at h
  | succ f ih =>
      intro props schema defs fd ff s' h
      cases props with
      | nil =>
          simp [extractAux] at h
          exact h.2.1
      | cons hd rest =>
          obtain ⟨i, j⟩ := hd
          obtain ⟨fuel2, jr, hfe, hres, hbr⟩ := step_cases h
          have hf2 : fuel2 = f := by omega
          subst hf2
          rcases hbr with ⟨p, schema1, eds, de, schema2, _, _, _, _, hcont⟩ | hbr | hbr | hbr
          · rcases hcont with ⟨_, hcont⟩ | ⟨_, hcont⟩
            · exact ih _ _ _ _ _ _ hcont
            · exact ih _ _ _ _ _ _ hcont
          · obtain ⟨t, d, _, _, _, hcont⟩ := hbr
            rcases hcont with ⟨_, hcont⟩ | ⟨_, hcont⟩
            · exact ih _ _ _ _ _ _ hcont
            · exact ih _ _ _ _ _ _ hcont
          · exact ih _ _ _ _ _ _ hbr.2
          · obtain ⟨et, _, _, _, _, hcont⟩ := hbr
            exact ih _ _ _ _ _ _ hcont

/-- Keys that do not occur in the remaining property list keep the defaults
entry (or absence) they had when the loop reached this point. -/
theorem loop_preserve (env : Env) : ∀ (fuel : Nat) (props : List (String × JsonVal))
    (schema : JsonVal) (defs : List (String × JsonVal)) (found : Bool)
    (fd : List (String × JsonVal)) (ff : Bool) (s' : JsonVal) (name : String),
    extractAux env fuel (.loop props schema defs found) = some (.ok (fd, ff, s')) →
    name ∉ props.map Prod.fst →
    lookupField fd name = lookupField defs name := by
  intro fuel
  induction fuel with
  | zero =>
      intro props schema defs found fd ff s' name h hn
      simp [extractAux] at h
  | succ f ih =>
      intro props schema defs found fd ff s' name h hn
      cases props with
      | nil =>
          simp [extractAux] at h
          rw [h.1]
      | cons hd rest =>
          obtain ⟨i, j⟩ := hd
          have hni : name ≠ i := by
            intro hc
            exact hn (by simp [hc])
          have hnr : name ∉ rest.map Prod.fst := by
            intro hc
            exact hn (by simp [hc])
          obtain ⟨fuel2, jr, hfe, hres, hbr⟩ := step_cases h
          have hf2 : fuel2 = f := by omega
          subst hf2
          rcases hbr with ⟨p, schema1, eds, de, schema2, _, _, _, _, hcont⟩ | hbr | hbr | hbr
          · rcases hcont with ⟨_, hcont⟩ | ⟨_, hcont⟩
            · rw [ih _ _ _ _ _ _ _ _ hcont hnr]
              exact lookup_dictSet_ne defs i name (.obj eds) hni
            · exact ih _ _ _ _ _ _ _ _ hcont hnr
          · obtain ⟨t, d, _, _, _, hcont⟩ := hbr
            rcases hcont with ⟨_, hcont⟩ | ⟨_, hcont⟩
            · exact ih _ _ _ _ _ _ _ _ hcont hnr
            · rw [ih _ _ _ _ _ _ _ _ hcont hnr]
              exact lookup_dictSet_ne defs i name d hni
          · rw [ih _ _ _ _ _ _ _ _ hbr.2 hnr]
            exact lookup_dictSet_ne defs i name .null hni
          · obtain ⟨et, _, _, _, _, hcont⟩ := hbr
            exact ih _ _ _ _ _ _ _ _ hcont hnr

/-- The loop preserves the invariant "the found-flag is set exactly when the
accumulated defaults dictionary is non-empty". -/
theorem loop_found_iff (env : Env) : ∀ (fuel : Nat) (props : List (String × JsonVal))
    (schema : JsonVal) (defs : List (String × JsonVal)) (found : Bool)
    (fd : List (String × JsonVal)) (ff : Bool) (s' : JsonVal),
    extractAux env fuel (.loop props schema defs found) = some (.ok (fd, ff, s')) →
    (found = true ↔ defs ≠ []) → (ff = true ↔ fd ≠ []) := by
  intro fuel
  induction fuel with
  | zero =>
      intro props schema defs found fd ff s' h hinv
      simp [extractAux] at h
  | succ f ih =>
      intro props schema defs found fd ff s' h hinv
      cases props with
      | nil =>
          simp [extractAux] at h
          obtain ⟨h1, h2, h3⟩ := h
          rw [← h1, ← h2]
          exact hinv
      | cons hd rest =>
          obtain ⟨i, j⟩ := hd
          obtain ⟨fuel2, jr, hfe, hres, hbr⟩ := step_cases h
          have hf2 : fuel2 = f := by omega
          subst hf2
          rcases hbr with ⟨p, schema1, eds, de, schema2, _, _, _, _, hcont⟩ | hbr | hbr | hbr
          · rcases hcont with ⟨_, hcont⟩ | ⟨_, hcont⟩
            · exact ih _ _ _ _ _ _ _ hcont (by simp [dictSet_ne_nil])
            · exact ih _ _ _ _ _ _ _ hcont hinv
          · obtain ⟨t, d, _, _, _, hcont⟩ := hbr
            rcases hcont with ⟨_, hcont⟩ | ⟨_, hcont⟩
            · exact ih _ _ _ _ _ _ _ hcont hinv
            · exact ih _ _ _ _ _ _ _ hcont (by simp [dictSet_ne_nil])
          · exact ih _ _ _ _ _ _ _ hbr.2 (by simp [dictSet_ne_nil])
          · obtain ⟨et, _, _, _, _, hcont⟩ := hbr
            exact ih _ _ _ _ _ _ _ hcont hinv

/-! ## Claim theorems -/

/-- A trivial environment: no files, empty working directory, identity
encoding (not applied), no external reference location. -/
def envTriv : Env :=
  { files := [], cwd := "", enc := fun s => s, useEnc := false, externalRefLoc := none }

/-- C2: at any loop iteration whose property node resolves to a node of type
`null`, the source sets the defaults entry for that property name to `None`
and reports `defaultsFound = true` — whether or not the node also carries an
explicit `default` key is never consulted.  (`name` occurring once in the
remaining property list reflects the uniqueness of Python dictionary keys.) -/
theorem claimC2 (env : Env) (fuel : Nat) (name : String) (j : JsonVal)
    (rest : List (String × JsonVal)) (schema : JsonVal)
    (defs : List (String × JsonVal)) (found : Bool)
    (fd : List (String × JsonVal)) (ff : Bool) (s' jr : JsonVal)
    (h : extractAux env fuel (.loop ((name, j) :: rest) schema defs found) =
      some (.ok (fd, ff, s')))
    (hres : resolveNode env schema j = .ok jr)
    (hty : pyGet jr "type" = .ok (.str "null"))
    (hn : name ∉ rest.map Prod.fst) :
    lookupField fd name = some .null ∧ ff = true := by
  obtain ⟨fuel2, jr2, hfe, hres2, hbr⟩ := step_cases h
  have hjr : jr2 = jr := Except.ok.inj (hres2.symm.trans hres)
  subst hjr
  rcases hbr with ⟨p, schema1, eds, de, schema2, hty1, _, _, _, _⟩ | hbr | hbr | hbr
  · have := hty.symm.trans hty1
    simp at this
  · obtain ⟨t, d, hty2, htmem, _, _⟩ := hbr
    have ht : t = "null" := by
      have := hty.symm.trans hty2
      simp at this
      exact this.symm
    subst ht
    simp [basicTypeNames] at htmem
  · obtain ⟨_, hcont⟩ := hbr
    constructor
    · rw [loop_preserve env fuel2 rest schema (dictSet defs name .null) true fd ff s' name
        hcont hn]
      exact lookup_dictSet_self defs name .null
    · exact loop_found_mono env fuel2 rest schema (dictSet defs name .null) fd ff s' hcont
  · obtain ⟨et, het, _, _, hnl, _⟩ := hbr
    have : et = .str "null" := Except.ok.inj (het.symm.trans hty)
    subst this
    simp [isStrEq] at hnl

/-- A witness run for C2: the property `n`, typed `null` and even carrying an
explicit `default` of `3`, produces the entry `n ↦ null` and a set
found-flag. -/
theorem claimC2_witness :
    lookupField [("n", JsonVal.null)] "n" = some JsonVal.null ∧ (true : Bool) = true :=
  claimC2 envTriv 2 "n" (.obj [("type", .str "null"), ("default", .num 3)]) []
    (.obj []) [] false [("n", .null)] true (.obj [])
    (.obj [("type", .str "null"), ("default", .num 3)])
    rfl rfl rfl (by simp)

/-- C3: at any loop iteration whose property node resolves to a node of a
basic type (`array`, `boolean`, `integer`, `number`, `string`), the defaults
entry for that name is present after the loop exactly when the node's
`default` (read with `None` as fallback) is not `None`: a non-null default —
including `0`, `false`, `""` — is stored with the found-flag set, while a
null-or-absent default leaves the name absent from the defaults. -/
theorem claimC3 (env : Env) (fuel : Nat) (name : String) (j : JsonVal)
    (rest : List (String × JsonVal)) (schema : JsonVal)
    (defs : List (String × JsonVal)) (found : Bool)
    (fd : List (String × JsonVal)) (ff : Bool) (s' jr : JsonVal) (t : String) (d : JsonVal)
    (h : extractAux env fuel (.loop ((name, j) :: rest) schema defs found) =
      some (.ok (fd, ff, s')))
    (hres : resolveNode env schema j = .ok jr)
    (hty : pyGet jr "type" = .ok (.str t))
    (ht : t ∈ basicTypeNames)
    (hdef : pyGet jr "default" = .ok d)
    (hn : name ∉ rest.map Prod.fst)
    (habs : lookupField defs name = none) :
    (d ≠ .null → lookupField fd name = some d ∧ ff = true) ∧
    (d = .null → lookupField fd name = none) := by
  obtain ⟨fuel2, jr2, hfe, hres2, hbr⟩ := step_cases h
  have hjr : jr2 = jr := Except.ok.inj (hres2.symm.trans hres)
  subst hjr
  rcases hbr with ⟨p, schema1, eds, de, schema2, hty1, _, _, _, _⟩ | hbr | hbr | hbr
  · have hsame := hty.symm.trans hty1
    simp at hsame
    subst hsame
    simp [basicTypeNames] at ht
  · obtain ⟨t2, d2, hty2, _, hdef2, hcont⟩ := hbr
    have hd2 : d2 = d := Except.ok.inj (hdef2.symm.trans hdef)
    rw [← hd2]
    rcases hcont with ⟨hdn, hcont⟩ | ⟨hdn, hcont⟩
    · refine ⟨fun hc => absurd hdn hc, fun _ => ?_⟩
      rw [loop_preserve env fuel2 rest schema defs found fd ff s' name hcont hn]
      exact habs
    · refine ⟨fun _ => ?_, fun hc => absurd hc hdn⟩
      constructor
      · rw [loop_preserve env fuel2 rest schema (dictSet defs name d2) true fd ff s' name
          hcont hn]
        exact lookup_dictSet_self defs name d2
      · exact loop_found_mono env fuel2 rest schema (dictSet defs name d2) fd ff s' hcont
  · obtain ⟨hty3, _⟩ := hbr
    have hsame := hty.symm.trans hty3
    simp at hsame
    subst hsame
    simp [basicTypeNames] at ht
  · obtain ⟨et, het, _, hbas, _, _⟩ := hbr
    have : et = .str t := Except.ok.inj (het.symm.trans hty)
    subst this
    rw [show (isStrEq (.str t) "array" || isStrEq (.str t) "boolean" ||
        isStrEq (.str t) "integer" || isStrEq (.str t) "number" ||
        isStrEq (.str t) "string") = true from
      (basic_cond_iff (.str t)).mpr ⟨t, rfl, ht⟩] at hbas
    exact absurd hbas (by simp)

/-- A witness run for C3: the property `i`, typed `integer` with the falsy
but non-null default `0`, is kept (`i ↦ 0`, found-flag set), exactly the
boundary the claim singles out. -/
theorem claimC3_witness :
    ((JsonVal.num 0) ≠ .null →
      lookupField [("i", JsonVal.num 0)] "i" = some (.num 0) ∧ (true : Bool) = true) ∧
    ((JsonVal.num 0) = .null → lookupField [("i", JsonVal.num 0)] "i" = none) :=
  claimC3 envTriv 2 "i" (.obj [("type", .str "integer"), ("default", .num 0)]) []
    (.obj []) [] false [("i", .num 0)] true (.obj [])
    (.obj [("type", .str "integer"), ("default", .num 0)]) "integer" (.num 0)
    rfl rfl rfl (by simp [basicTypeNames]) rfl (by simp) rfl

/-- C10: for every call of `extract_schema_defaults` that returns normally,
the returned found-flag is `true` exactly when the returned defaults
dictionary is non-empty: the flag carries no information beyond the
emptiness of the mapping. -/
theorem claimC10 (env : Env) (fuel : Nat) (schema : JsonVal)
    (fd : List (String × JsonVal)) (ff : Bool) (s' : JsonVal)
    (h : extract_schema_defaults env fuel schema = some (.ok (fd, ff, s'))) :
    ff = true ↔ fd ≠ [] := by
  obtain ⟨fuel2, fields, _, _, hloop⟩ := top_cases h
  exact loop_found_iff env fuel2 fields schema [] false fd ff s' hloop (by simp)

/-- A witness run for C10: a schema whose only property has no default and a
non-null type returns exactly `({}, false)`, and the equivalence
specializes to the two `false` sides. -/
theorem claimC10_witness :
    (false = true ↔ ([] : List (String × JsonVal)) ≠ []) :=
  claimC10 envTriv 3 (.obj [("properties", .obj [("s", .obj [("type", .str "string")])])])
    [] false (.obj [("properties", .obj [("s", .obj [("type", .str "string")])])]) rfl

/-- C8: on any input schema without a `properties` entry (including
non-dictionary inputs), `extract_schema_defaults` raises an
AttributeError-class error — `iteritems(schema.get("properties"))` calls
`.items()` on `None` — which is not caught, and no pair is returned. -/
theorem claimC8 (env : Env) (fuel : Nat) (schema : JsonVal)
    (h : ∀ fs, schema = .obj fs → lookupField fs "properties" = none) :
    extract_schema_defaults env (fuel + 1) schema = some (.error .attributeError) := by
  cases schema with
  | obj fs =>
      have hnone := h fs rfl
      simp [extract_schema_defaults, extractAux, pyGet, hnone]
  | null => rfl
  | bool b => rfl
  | num n => rfl
  | str s => rfl
  | arr l => rfl

/-- A witness run for C8: the empty-dictionary schema (no `properties` key)
crashes with an AttributeError. -/
theorem claimC8_witness :
    extract_schema_defaults envTriv 1 (.obj [("title", .str "x")]) =
      some (.error .attributeError) :=
  claimC8 envTriv 0 (.obj [("title", .str "x")])
    (fun fs hfs => by
      have : fs = [("title", JsonVal.str "x")] := by
        injection hfs with hh
        exact hh.symm
      rw [this]
      rfl)

/-- A schema whose `definitions` entry is the number `5` — a truthy value
that is not a mapping — with a property referencing `#/definitions/x`. -/
def sC4 : JsonVal :=
  .obj [("definitions", .num 5),
    ("properties", .obj [("p", .obj [("$ref", .str "#/definitions/x")])])]

/-- Counterexample to C4 as stated: here a segment walk fails because an
intermediate value (`definitions = 5`) is not a mapping, yet resolution does
NOT silently yield an absent node — the walk itself raises the
AttributeError (from `5 .get("x")` inside the `reduce` lambda), before any
type dispatch takes place, and the whole extraction aborts with it. -/
theorem claimC4cex :
    refWalk ["definitions", "x"] sC4 = .error .attributeError ∧
    resolveNode envTriv sC4 (.obj [("$ref", .str "#/definitions/x")]) =
      .error .attributeError ∧
    extract_schema_defaults envTriv 3 sC4 = some (.error .attributeError) :=
  ⟨rfl, rfl, rfl⟩

/-- C4 as amended: a walk step on a falsy intermediate value, or on a
mapping that lacks the segment key, yields `None` without error (and `None`
then propagates through the rest of the walk); when the whole resolution
yields the absent node, the subsequent type dispatch fails with an
AttributeError while reading `.get("type")` on `None`.  (A truthy
non-mapping intermediate instead raises during resolution itself, as
`claimC4cex` shows.) -/
theorem claimC4 :
    (∀ (d : JsonVal) (k : String), truthy d = false → refStep d k = .ok .null) ∧
    (∀ (fs : List (String × JsonVal)) (k : String),
      lookupField fs k = none → refStep (.obj fs) k = .ok .null) ∧
    (∀ (segs : List String), refWalk segs .null = .ok .null) ∧
    (∀ (env : Env) (fuel : Nat) (i : String) (j : JsonVal)
      (rest : List (String × JsonVal)) (schema : JsonVal)
      (defs : List (String × JsonVal)) (found : Bool),
      resolveNode env schema j = .ok .null →
      extractAux env (fuel + 1) (.loop ((i, j) :: rest) schema defs found) =
        some (.error .attributeError)) := by
  refine ⟨?_, ?_, ?_, ?_⟩
  · intro d k h
    simp [refStep, h]
  · intro fs k h
    cases fs with
    | nil => rfl
    | cons hd tl => simp [refStep, truthy, pyGet, h]
  · intro segs
    induction segs with
    | nil => rfl
    | cons k rest ih => simpa [refWalk, refStep, truthy] using ih
  · intro env fuel i j rest schema defs found hres
    simp only [extractAux]
    split
    next e heq => exact absurd (hres.symm.trans heq) (by simp)
    next jr heq =>
      have hjr : jr = .null := (Except.ok.inj (hres.symm.trans heq)).symm
      subst hjr
      rfl

/-- A witness run for the amended C4: a pointer to a missing key under an
existing `definitions` mapping resolves to the absent node and the loop step
aborts with an AttributeError at the type read. -/
theorem claimC4_witness :
    extractAux envTriv 1
      (.loop [("p", .obj [("$ref", .str "#/definitions/missing")])]
        (.obj [("definitions", .obj [("k", .num 1)])]) [] false) =
      some (.error .attributeError) :=
  claimC4.2.2.2 envTriv 0 "p" (.obj [("$ref", .str "#/definitions/missing")]) []
    (.obj [("definitions", .obj [("k", .num 1)])]) [] false rfl

/-- The external reference document `{"type": "integer", "default": 7}`. -/
def extJson : JsonVal := .obj [("type", .str "integer"), ("default", .num 7)]

/-- The schema `{"properties": {"p": {"$ref": "file:ext.json"}}}`. -/
def sC5 : JsonVal :=
  .obj [("properties", .obj [("p", .obj [("$ref", .str "file:ext.json")])])]

/-- Environment for the external-reference scenario: `ext.json` lives under
the supplied base `/base` and parses to `extJson`; the encoding argument is
truthy, so the loaded document is passed through `change_encoding` with the
text-encoding function `enc` before type dispatch. -/
def envC5 (enc : String → String) : Env :=
  { files := [("/base/ext.json", extJson)], cwd := "/cwd", enc := enc,
    useEnc := true, externalRefLoc := some "/base" }

/-- C5: on `{"properties":{"p":{"$ref":"file:ext.json"}}}` with a non-empty
encoding, where `ext.json` parses to `{"type":"integer","default":7}`, the
node is replaced by the loaded file content re-encoded by `change_encoding`,
and the extraction returns `({"p": 7}, true)`.  The hypotheses say the
encoding maps the document's three ASCII strings to themselves (as `utf-8`
does in the Python 2 setting the helper was written for). -/
theorem claimC5 (enc : String → String)
    (h1 : enc "type" = "type") (h2 : enc "default" = "default")
    (h3 : enc "integer" = "integer") :
    resolveNode (envC5 enc) sC5 (.obj [("$ref", .str "file:ext.json")]) =
      .ok (change_encoding enc extJson) ∧
    extract_schema_defaults (envC5 enc) 3 sC5 =
      some (.ok ([("p", .num 7)], true, sC5)) := by
  have hjr : change_encoding enc extJson = extJson := by
    simp [extJson, change_encoding, encodeFields, h1, h2, h3]
  refine ⟨rfl, ?_⟩
  have hres : resolveNode (envC5 enc) sC5 (.obj [("$ref", JsonVal.str "file:ext.json")]) =
      .ok extJson := by
    rw [show resolveNode (envC5 enc) sC5 (.obj [("$ref", JsonVal.str "file:ext.json")]) =
      .ok (change_encoding enc extJson) from rfl, hjr]
  show extractAux (envC5 enc) 2
      (.loop [("p", .obj [("$ref", JsonVal.str "file:ext.json")])] sC5 [] false) =
    some (.ok ([("p", .num 7)], true, sC5))
  simp only [extractAux]
  split
  next e heq => exact absurd (hres.symm.trans heq) (by simp)
  next jr heq =>
      have hjr2 : jr = extJson := (Except.ok.inj (hres.symm.trans heq)).symm
      subst hjr2
      rfl

/-- A witness run for C5 at the identity encoding. -/
theorem claimC5_witness :
    resolveNode (envC5 id) sC5 (.obj [("$ref", .str "file:ext.json")]) =
      .ok (change_encoding id extJson) ∧
    extract_schema_defaults (envC5 id) 3 sC5 =
      some (.ok ([("p", .num 7)], true, sC5)) :=
  claimC5 id rfl rfl rfl

/-- The body of `#/definitions/Point`:
`{"type":"object","properties":{"x":{"type":"integer","default":0}}}`. -/
def pointBody : JsonVal :=
  .obj [("type", .str "object"),
    ("properties", .obj [("x", .obj [("type", .str "integer"), ("default", .num 0)])])]

/-- The schema whose property `p` references `#/definitions/Point`. -/
def sC6ref : JsonVal :=
  .obj [("definitions", .obj [("Point", pointBody)]),
    ("properties", .obj [("p", .obj [("$ref", .str "#/definitions/Point")])])]

/-- The same schema with `Point`'s body inlined in place of the `$ref`
node. -/
def sC6inline : JsonVal :=
  .obj [("definitions", .obj [("Point", pointBody)]),
    ("properties", .obj [("p", pointBody)])]

/-- C6: resolving the local reference `#/definitions/Point` yields exactly
the same outcome — defaults `{"p": {"x": 0}}`, found-flag `true`, and even
the same final state of the mutated schema object — as running the extractor
on the schema with `Point`'s body inlined at the reference site. -/
theorem claimC6 :
    extract_schema_defaults envTriv 10 sC6ref =
      extract_schema_defaults envTriv 10 sC6inline ∧
    extract_schema_defaults envTriv 10 sC6ref =
      some (.ok ([("p", .obj [("x", .num 0)])], true,
        .obj [("definitions", .obj [("Point", pointBody)]),
          ("properties", .obj [("x", .obj [("type", .str "integer"),
            ("default", .num 0)])])])) :=
  ⟨rfl, rfl⟩

/-- The nested-object schema of C7: the parent `a` carries its own
`default` of `{"b": 0}` while the child `b` declares `default: 1`. -/
def sC7 : JsonVal :=
  .obj [("properties", .obj [("a",
    .obj [("type", .str "object"),
      ("default", .obj [("b", .num 0)]),
      ("properties", .obj [("b", .obj [("type", .str "integer"),
        ("default", .num 1)])])])])]

/-- C7: the extraction yields `{"a": {"b": 1}}` — for an object-typed
property only the recursively extracted child defaults are used, so the
child's `default: 1` wins over the parent-level `default: {"b": 0}`, which
is never read. -/
theorem claimC7 :
    extract_schema_defaults envTriv 10 sC7 =
      some (.ok ([("a", .obj [("b", .num 1)])], true,
        .obj [("properties", .obj [("b", .obj [("type", .str "integer"),
          ("default", .num 1)])])])) :=
  rfl

/-- The object property `t` of C9's nested schema. -/
def tNodeC9 : JsonVal := .obj [("type", .str "integer"), ("default", .num 5)]

/-- C9's schema: an object property `a` whose nested properties hold `t`,
followed by a sibling `b` that points at `#/properties/t` — a path that only
exists after the object branch has overwritten `properties`. -/
def sC9 : JsonVal :=
  .obj [("properties", .obj [
    ("a", .obj [("type", .str "object"), ("properties", .obj [("t", tNodeC9)])]),
    ("b", .obj [("$ref", .str "#/properties/t")])])]

/-- The state of the schema object after the call: its `properties` entry
has been reassigned in place to `a`'s nested properties. -/
def sC9after : JsonVal := .obj [("properties", .obj [("t", tNodeC9)])]

/-- C9: the call mutates its input.  Processing the object-typed property
`a` reassigns the caller's `properties` entry to `a`'s nested properties
before recursing, and the later sibling `b`'s local pointer
`#/properties/t` is resolved against this mutated object — it finds `t`
(default `5`) even though walking the same pointer from the original input
yields only the absent node — so the call returns `b ↦ 5` and leaves the
schema object changed (`sC9after ≠ sC9`). -/
theorem claimC9 :
    extract_schema_defaults envTriv 10 sC9 =
      some (.ok ([("a", .obj [("t", .num 5)]), ("b", .num 5)], true, sC9after)) ∧
    refWalk ["properties", "t"] sC9 = .ok .null ∧
    sC9after ≠ sC9 := by
  refine ⟨rfl, rfl, ?_⟩
  intro hc
  have hlen := congrArg (fun j =>
    match j with
    | JsonVal.obj fs =>
        match lookupField fs "properties" with
        | some (JsonVal.obj cs) => cs.length
        | _ => 0
    | _ => 0) hc
  simp [sC9after, sC9, lookupField] at hlen

/-! ## Auxiliary lemmas for the membership characterization (C1) -/

theorem pyIndex_ok {j : JsonVal} {k : String} {p : JsonVal}
    (h : pyIndex j k = .ok p) : ∃ fs, j = .obj fs ∧ lookupField fs k = some p := by
  cases j with
  | obj fs =>
      refine ⟨fs, rfl, ?_⟩
      simp only [pyIndex] at h
      rcases hl : lookupField fs k with _ | v
      · rw [hl] at h
        simp at h
      · rw [hl] at h
        simp at h
        rw [h]
  | null => simp [pyIndex] at h
  | bool b => simp [pyIndex] at h
  | num n => simp [pyIndex] at h
  | str s => simp [pyIndex] at h
  | arr l => simp [pyIndex] at h

theorem pySetItem_ok {schema : JsonVal} {k : String} {v s1 : JsonVal}
    (h : pySetItem schema k v = .ok s1) :
    ∃ fs, schema = .obj fs ∧ s1 = .obj (dictSet fs k v) := by
  cases schema with
  | obj fs =>
      refine ⟨fs, rfl, ?_⟩
      simp only [pySetItem] at h
      exact (Except.ok.inj h).symm
  | null => simp [pySetItem] at h
  | bool b => simp [pySetItem] at h
  | num n => simp [pySetItem] at h
  | str s => simp [pySetItem] at h
  | arr l => simp [pySetItem] at h

theorem pyGet_ok_obj {j : JsonVal} {k : String} {v : JsonVal}
    (h : pyGet j k = .ok v) : ∃ fs, j = .obj fs := by
  cases j with
  | obj fs => exact ⟨fs, rfl⟩
  | null => simp [pyGet] at h
  | bool b => simp [pyGet] at h
  | num n => simp [pyGet] at h
  | str s => simp [pyGet] at h
  | arr l => simp [pyGet] at h

theorem pyGet_of_lookup {fs : List (String × JsonVal)} {k : String} {v : JsonVal}
    (h : lookupField fs k = some v) : pyGet (.obj fs) k = .ok v := by
  simp [pyGet, h]

theorem children_of_pyGet {schema : JsonVal} {fields : List (String × JsonVal)}
    (h : pyGet schema "properties" = .ok (.obj fields)) : children schema = fields := by
  obtain ⟨fs, rfl⟩ := pyGet_ok_obj h
  simp only [pyGet, Except.ok.injEq] at h
  rcases hl : lookupField fs "properties" with _ | v
  · rw [hl] at h
    simp at h
  · rw [hl] at h
    simp at h
    rw [h] at hl
    simp [children, hl]

theorem getTypeStr_pyGet {j et : JsonVal} {s : String}
    (het : pyGet j "type" = .ok et) (hs : getTypeStr j = some s) : et = .str s := by
  obtain ⟨fs, rfl⟩ := pyGet_ok_obj het
  simp only [getTypeStr] at hs
  rcases hl : lookupField fs "type" with _ | v
  · rw [hl] at hs
    simp at hs
  · rw [hl] at hs
    cases v with
    | str x =>
        simp at hs
        simp only [pyGet, hl, Except.ok.injEq] at het
        simp at het
        rw [← het, hs]
    | null => simp at hs
    | bool b => simp at hs
    | num n => simp at hs
    | arr l => simp at hs
    | obj l => simp at hs

/-- Inversion for `Contributes`. -/
theorem contributes_cases {j : JsonVal} (h : Contributes j) :
    getTypeStr j = some "null" ∨
    (∃ t, getTypeStr j = some t ∧ t ∈ basicTypeNames ∧ hasExplicitDefault j = true) ∨
    (getTypeStr j = some "object" ∧ ∃ kv, kv ∈ children j ∧ Contributes kv.2) := by
  cases h with
  | nullType j hn => exact Or.inl hn
  | basicDefault j t ht htb hd => exact Or.inr (Or.inl ⟨t, ht, htb, hd⟩)
  | objectChild j name c ho hm hc => exact Or.inr (Or.inr ⟨ho, ⟨(name, c), hm, hc⟩⟩)

theorem exists_prop_cons {i : String} {j : JsonVal} {rest : List (String × JsonVal)}
    {P : JsonVal → Prop} {name : String} :
    (∃ j', (name, j') ∈ (i, j) :: rest ∧ P j') ↔
      ((name = i ∧ P j) ∨ ∃ j', (name, j') ∈ rest ∧ P j') := by
  constructor
  · rintro ⟨j', hm, hp⟩
    rcases List.mem_cons.mp hm with he | hm2
    · obtain ⟨h1, h2⟩ := Prod.mk.injEq .. ▸ he
      subst h1
      subst h2
      exact Or.inl ⟨rfl, hp⟩
    · exact Or.inr ⟨j', hm2, hp⟩
  · rintro (⟨h1, hp⟩ | ⟨j', hm, hp⟩)
    · subst h1
      exact ⟨j, List.mem_cons_self _ _, hp⟩
    · exact ⟨j', List.mem_cons_of_mem _ hm, hp⟩

theorem exists_kv_cons {i : String} {j : JsonVal} {rest : List (String × JsonVal)}
    {P : JsonVal → Prop} :
    (∃ kv, kv ∈ (i, j) :: rest ∧ P kv.2) ↔
      (P j ∨ ∃ kv, kv ∈ rest ∧ P kv.2) := by
  constructor
  · rintro ⟨kv, hm, hp⟩
    rcases List.mem_cons.mp hm with he | hm2
    · subst he
      exact Or.inl hp
    · exact Or.inr ⟨kv, hm2, hp⟩
  · rintro (hp | ⟨kv, hm, hp⟩)
    · exact ⟨(i, j), List.mem_cons_self _ _, hp⟩
    · exact ⟨kv, List.mem_cons_of_mem _ hm, hp⟩

/-- If a schema value is ref-free, so are the values of its `properties`
entry list. -/
theorem refFree_props_values {schema : JsonVal} (hrf : refFreeVal schema = true) :
    ∀ fields, pyGet schema "properties" = .ok (.obj fields) →
      ∀ kv ∈ fields, refFreeVal kv.2 = true := by
  intro fields hf kv hm
  obtain ⟨fs, rfl⟩ := pyGet_ok_obj hf
  have hfs : refFreeFields fs = true := by simpa [refFreeVal] using hrf
  simp only [pyGet, Except.ok.injEq] at hf
  rcases hl : lookupField fs "properties" with _ | v
  · rw [hl] at hf
    simp at hf
  · rw [hl] at hf
    simp at hf
    rw [hf] at hl
    have hv := refFreeFields_lookup hfs hl
    obtain ⟨k1, v1⟩ := kv
    exact refFreeFields_mem (by simpa [refFreeVal] using hv) hm

/-- Joint membership/found characterization of the extractor on ref-free
property lists: a name ends up in the defaults exactly when it was already
there or some occurrence of it in the (remaining) property list has a
contributing node, and the found-flag ends up set exactly when it was set or
some remaining node contributes. -/
theorem extract_refFree_char (env : Env) : ∀ (fuel : Nat),
    (∀ (props : List (String × JsonVal)) (schema : JsonVal)
      (defs : List (String × JsonVal)) (found : Bool)
      (fd : List (String × JsonVal)) (ff : Bool) (s' : JsonVal),
      (∀ kv ∈ props, refFreeVal kv.2 = true) →
      extractAux env fuel (.loop props schema defs found) = some (.ok (fd, ff, s')) →
      ((∀ name, (lookupField fd name).isSome = true ↔
          ((lookupField defs name).isSome = true ∨
            ∃ j, (name, j) ∈ props ∧ Contributes j)) ∧
        (ff = true ↔ (found = true ∨ ∃ kv, kv ∈ props ∧ Contributes kv.2)))) ∧
    (∀ (schema : JsonVal) (fd : List (String × JsonVal)) (ff : Bool) (s' : JsonVal),
      (∀ fields, pyGet schema "properties" = .ok (.obj fields) →
        ∀ kv ∈ fields, refFreeVal kv.2 = true) →
      extractAux env fuel (.top schema) = some (.ok (fd, ff, s')) →
      ((∀ name, (lookupField fd name).isSome = true ↔
          ∃ j, (name, j) ∈ children schema ∧ Contributes j) ∧
        (ff = true ↔ ∃ kv, kv ∈ children schema ∧ Contributes kv.2))) := by
  intro fuel
  induction fuel with
  | zero =>
      constructor
      · intro props schema defs found fd ff s' hprops h
        simp [extractAux] at h
      · intro schema fd ff s' hprops h
        simp [extractAux] at h
  | succ f ih =>
      constructor
      · -- loop statement at f + 1
        intro props schema defs found fd ff s' hprops h
        cases props with
        | nil =>
            simp [extractAux] at h
            obtain ⟨h1, h2, h3⟩ := h
            constructor
            · intro name
              rw [← h1]
              simp
            · rw [← h2]
              simp
        | cons hd rest =>
            obtain ⟨i, j⟩ := hd
            have hj : refFreeVal j = true := hprops (i, j) (List.mem_cons_self _ _)
            have hrest : ∀ kv ∈ rest, refFreeVal kv.2 = true :=
              fun kv hm => hprops kv (List.mem_cons_of_mem _ hm)
            obtain ⟨fuel2, jr, hfe, hres, hbr⟩ := step_cases h
            have hfuel : fuel2 = f := by omega
            subst hfuel
            have hjr : j = jr := (resolveNode_refFree_eq hj hres).symm
            subst hjr
            rcases hbr with ⟨p, schema1, eds, de, schema2, hty1, hpi, hsi, hin, hcont⟩ |
              hbr | hbr | hbr
            · -- object branch
              have htype : getTypeStr j = some "object" := pyGet_type_str hty1
              obtain ⟨jfs, hjobj, hjlook⟩ := pyIndex_ok hpi
              obtain ⟨sfs, hsobj, hs1⟩ := pySetItem_ok hsi
              obtain ⟨f2, fields2, hfe2, hpg2, _⟩ := top_cases hin
              have hpg1 : pyGet schema1 "properties" = .ok p := by
                rw [hs1]
                exact pyGet_of_lookup (lookup_dictSet_self sfs "properties" p)
              have hpp : p = .obj fields2 := Except.ok.inj (hpg1.symm.trans hpg2)
              subst hpp
              have hchj : children j = fields2 := by
                rw [hjobj]
                simp [children, hjlook]
              have hchs1 : children schema1 = fields2 := children_of_pyGet hpg2
              have hpf : refFreeVal (.obj fields2) = true := by
                rw [hjobj] at hj
                exact refFreeFields_lookup (by simpa [refFreeVal] using hj) hjlook
              have hfrf : ∀ kv ∈ fields2, refFreeVal kv.2 = true := by
                intro kv hm
                obtain ⟨k1, v1⟩ := kv
                exact refFreeFields_mem (by simpa [refFreeVal] using hpf) hm
              have htopIH := ih.2 schema1 eds de schema2
                (fun fields hf kv hm => by
                  have hff : fields = fields2 := by
                    have := hpg1.symm.trans hf
                    simpa using this.symm
                  rw [hff] at hm
                  exact hfrf kv hm) hin
              obtain ⟨ihP, ihF⟩ := htopIH
              rw [hchs1] at ihF
              have hCj : Contributes j ↔ ∃ kv, kv ∈ fields2 ∧ Contributes kv.2 := by
                constructor
                · intro hc
                  rcases contributes_cases hc with hnull | ⟨t, ht, htb, _⟩ | ⟨_, kv, hm, hkv⟩
                  · rw [htype] at hnull
                    exact absurd (Option.some.inj hnull) (by decide)
                  · have ht2 : t = "object" := Option.some.inj (ht.symm.trans htype)
                    rw [ht2] at htb
                    exact absurd htb (by decide)
                  · rw [hchj] at hm
                    exact ⟨kv, hm, hkv⟩
                · rintro ⟨⟨n1, c1⟩, hm, hc⟩
                  exact Contributes.objectChild j n1 c1 htype (hchj ▸ hm) hc
              rcases hcont with ⟨hde, hcont⟩ | ⟨hde, hcont⟩
              · -- recursive call found a default
                have hCjT : Contributes j := hCj.mpr (ihF.mp hde)
                obtain ⟨ihPr, ihFr⟩ := ih.1 rest schema2 (dictSet defs i (.obj eds)) true
                  fd ff s' hrest hcont
                constructor
                · intro name
                  rw [ihPr name, lookupField_isSome_dictSet, exists_prop_cons]
                  constructor
                  · rintro (hl | hr)
                    · rcases hl with hl | hl
                      · exact Or.inr (Or.inl ⟨hl, hCjT⟩)
                      · exact Or.inl hl
                    · exact Or.inr (Or.inr hr)
                  · rintro (hl | ⟨hn, _⟩ | hr)
                    · exact Or.inl (Or.inr hl)
                    · exact Or.inl (Or.inl hn)
                    · exact Or.inr hr
                · rw [ihFr, exists_kv_cons]
                  constructor
                  · intro hx
                    rcases hx with _ | hx
                    · exact Or.inr (Or.inl hCjT)
                    · exact Or.inr (Or.inr hx)
                  · intro hx
                    exact Or.inl rfl
              · -- recursive call found nothing
                have hnCj : ¬ Contributes j := by
                  intro hc
                  have hde2 : de = true := ihF.mpr (hCj.mp hc)
                  rw [hde] at hde2
                  exact Bool.noConfusion hde2
                obtain ⟨ihPr, ihFr⟩ := ih.1 rest schema2 defs found fd ff s' hrest hcont
                constructor
                · intro name
                  rw [ihPr name, exists_prop_cons]
                  constructor
                  · rintro (hl | hr)
                    · exact Or.inl hl
                    · exact Or.inr (Or.inr hr)
                  · rintro (hl | ⟨_, hcj⟩ | hr)
                    · exact Or.inl hl
                    · exact absurd hcj hnCj
                    · exact Or.inr hr
                · rw [ihFr, exists_kv_cons]
                  constructor
                  · rintro (hl | hr)
                    · exact Or.inl hl
                    · exact Or.inr (Or.inr hr)
                  · rintro (hl | hcj | hr)
                    · exact Or.inl hl
                    · exact absurd hcj hnCj
                    · exact Or.inr hr
            · -- basic-type branch
              obtain ⟨t, d, hty2, htb, hdef, hcont⟩ := hbr
              have htype : getTypeStr j = some t := pyGet_type_str hty2
              obtain ⟨jfs, hjobj⟩ := pyGet_ok_obj hty2
              rcases hcont with ⟨hdn, hcont⟩ | ⟨hdn, hcont⟩
              · -- null-valued default: skipped
                have hed : hasExplicitDefault j = false := by
                  rw [hjobj]
                  rw [hjobj, hdn] at hdef
                  exact pyGet_default_null hdef
                have hnCj : ¬ Contributes j := by
                  intro hc
                  rcases contributes_cases hc with hnull | ⟨t2, ht2, htb2, hd2⟩ | ⟨ho2, _⟩
                  · have ht3 : t = "null" := Option.some.inj (htype.symm.trans hnull)
                    rw [ht3] at htb
                    exact absurd htb (by decide)
                  · rw [hd2] at hed
                    exact Bool.noConfusion hed
                  · have ht3 : t = "object" := Option.some.inj (htype.symm.trans ho2)
                    rw [ht3] at htb
                    exact absurd htb (by decide)
                obtain ⟨ihPr, ihFr⟩ := ih.1 rest schema defs found fd ff s' hrest hcont
                constructor
                · intro name
                  rw [ihPr name, exists_prop_cons]
                  constructor
                  · rintro (hl | hr)
                    · exact Or.inl hl
                    · exact Or.inr (Or.inr hr)
                  · rintro (hl | ⟨_, hcj⟩ | hr)
                    · exact Or.inl hl
                    · exact absurd hcj hnCj
                    · exact Or.inr hr
                · rw [ihFr, exists_kv_cons]
                  constructor
                  · rintro (hl | hr)
                    · exact Or.inl hl
                    · exact Or.inr (Or.inr hr)
                  · rintro (hl | hcj | hr)
                    · exact Or.inl hl
                    · exact absurd hcj hnCj
                    · exact Or.inr hr
              · -- non-null default: stored
                have hed : hasExplicitDefault j = true := by
                  rw [hjobj]
                  rw [hjobj] at hdef
                  exact (pyGet_default_some hdef hdn).1
                have hCjT : Contributes j := Contributes.basicDefault j t htype htb hed
                obtain ⟨ihPr, ihFr⟩ := ih.1 rest schema (dictSet defs i d) true
                  fd ff s' hrest hcont
                constructor
                · intro name
                  rw [ihPr name, lookupField_isSome_dictSet, exists_prop_cons]
                  constructor
                  · rintro (hl | hr)
                    · rcases hl with hl | hl
                      · exact Or.inr (Or.inl ⟨hl, hCjT⟩)
                      · exact Or.inl hl
                    · exact Or.inr (Or.inr hr)
                  · rintro (hl | ⟨hn, _⟩ | hr)
                    · exact Or.inl (Or.inr hl)
                    · exact Or.inl (Or.inl hn)
                    · exact Or.inr hr
                · rw [ihFr, exists_kv_cons]
                  constructor
                  · rintro (_ | hx)
                    · exact Or.inr (Or.inl hCjT)
                    · exact Or.inr (Or.inr hx)
                  · intro hx
                    exact Or.inl rfl
            · -- null-type branch
              obtain ⟨hty3, hcont⟩ := hbr
              have htype : getTypeStr j = some "null" := pyGet_type_str hty3
              have hCjT : Contributes j := Contributes.nullType j htype
              obtain ⟨ihPr, ihFr⟩ := ih.1 rest schema (dictSet defs i .null) true
                fd ff s' hrest hcont
              constructor
              · intro name
                rw [ihPr name, lookupField_isSome_dictSet, exists_prop_cons]
                constructor
                · rintro (hl | hr)
                  · rcases hl with hl | hl
                    · exact Or.inr (Or.inl ⟨hl, hCjT⟩)
                    · exact Or.inl hl
                  · exact Or.inr (Or.inr hr)
                · rintro (hl | ⟨hn, _⟩ | hr)
                  · exact Or.inl (Or.inr hl)
                  · exact Or.inl (Or.inl hn)
                  · exact Or.inr hr
              · rw [ihFr, exists_kv_cons]
                constructor
                · rintro (_ | hx)
                  · exact Or.inr (Or.inl hCjT)
                  · exact Or.inr (Or.inr hx)
                · intro hx
                  exact Or.inl rfl
            · -- unknown/missing type: skipped silently
              obtain ⟨et, het, ho, hbas, hn, hcont⟩ := hbr
              have hnCj : ¬ Contributes j := by
                intro hc
                rcases contributes_cases hc with hnull | ⟨t2, ht2, htb2, _⟩ | ⟨ho2, _⟩
                · have het2 : et = .str "null" := getTypeStr_pyGet het hnull
                  rw [het2] at hn
                  simp [isStrEq] at hn
                · have het2 : et = .str t2 := getTypeStr_pyGet het ht2
                  rw [het2] at hbas
                  simp [(basic_cond_iff (.str t2)).mpr ⟨t2, rfl, htb2⟩] at hbas
                · have het2 : et = .str "object" := getTypeStr_pyGet het ho2
                  rw [het2] at ho
                  simp [isStrEq] at ho
              obtain ⟨ihPr, ihFr⟩ := ih.1 rest schema defs found fd ff s' hrest hcont
              constructor
              · intro name
                rw [ihPr name, exists_prop_cons]
                constructor
                · rintro (hl | hr)
                  · exact Or.inl hl
                  · exact Or.inr (Or.inr hr)
                · rintro (hl | ⟨_, hcj⟩ | hr)
                  · exact Or.inl hl
                  · exact absurd hcj hnCj
                  · exact Or.inr hr
              · rw [ihFr, exists_kv_cons]
                constructor
                · rintro (hl | hr)
                  · exact Or.inl hl
                  · exact Or.inr (Or.inr hr)
                · rintro (hl | hcj | hr)
                  · exact Or.inl hl
                  · exact absurd hcj hnCj
                  · exact Or.inr hr
      · -- top statement at f + 1
        intro schema fd ff s' hprops h
        obtain ⟨fuel2, fields, hfe, hpg, hloop⟩ := top_cases h
        have hfuel : fuel2 = f := by omega
        subst hfuel
        have hch : children schema = fields := children_of_pyGet hpg
        have hfrf : ∀ kv ∈ fields, refFreeVal kv.2 = true := hprops fields hpg
        obtain ⟨ihP, ihF⟩ := ih.1 fields schema [] false fd ff s' hfrf hloop
        constructor
        · intro name
          rw [ihP name, hch]
          simp [lookupField]
        · rw [ihF, hch]
          simp

/-- Converse bridge: a node whose `getTypeStr` is `some s` answers
`.get("type")` with exactly the string `s`. -/
theorem pyGet_type_of_getTypeStr {j : JsonVal} {s : String}
    (h : getTypeStr j = some s) : pyGet j "type" = .ok (.str s) := by
  cases j with
  | obj fs =>
      simp only [getTypeStr] at h
      rcases hl : lookupField fs "type" with _ | v
      · rw [hl] at h
        simp at h
      · rw [hl] at h
        cases v with
        | str x =>
            simp at h
            rw [← h]
            simp [pyGet, hl]
        | null => simp at h
        | bool b => simp at h
        | num n => simp at h
        | arr l => simp at h
        | obj l => simp at h
  | null => simp [getTypeStr] at h
  | bool b => simp [getTypeStr] at h
  | num n => simp [getTypeStr] at h
  | str s2 => simp [getTypeStr] at h
  | arr l => simp [getTypeStr] at h

/-- Converse bridge: a node with an explicit non-null default answers
`.get("default")` with that non-null value. -/
theorem hasExplicitDefault_pyGet {j : JsonVal} (h : hasExplicitDefault j = true) :
    ∃ d, pyGet j "default" = .ok d ∧ d ≠ .null := by
  cases j with
  | obj fs =>
      simp only [hasExplicitDefault] at h
      rcases hl : lookupField fs "default" with _ | v
      · rw [hl] at h
        simp at h
      · rw [hl] at h
        refine ⟨v, by simp [pyGet, hl], ?_⟩
        intro hc
        rw [hc] at h
        simp [isNull] at h
  | null => simp [hasExplicitDefault] at h
  | bool b => simp [hasExplicitDefault] at h
  | num n => simp [hasExplicitDefault] at h
  | str s => simp [hasExplicitDefault] at h
  | arr l => simp [hasExplicitDefault] at h

/-- The amended C1 membership condition for a resolved property node `jr`,
processed while the shared schema object holds the value `schema`, with
`fuel` available to the recursive call: the node is typed `null`; or it has
a basic type and an explicit non-null default; or it is typed `object` and
the defaults document recursively extracted from it — against the schema
whose `properties` entry has been reassigned to the node's own — is
non-empty. -/
def resolvedContributes (env : Env) (fuel : Nat) (schema jr : JsonVal) : Prop :=
  getTypeStr jr = some "null" ∨
  (∃ t, getTypeStr jr = some t ∧ t ∈ basicTypeNames ∧ hasExplicitDefault jr = true) ∨
  (getTypeStr jr = some "object" ∧
    ∃ p schema1 eds de s2,
      pyIndex jr "properties" = .ok p ∧
      pySetItem schema "properties" p = .ok schema1 ∧
      extractAux env fuel (.top schema1) = some (.ok (eds, de, s2)) ∧ eds ≠ [])

/-- C1 as amended, for every schema on which the call returns normally,
references included.  First part (the claim proper): at any loop iteration,
the property name ends up as a key of the returned defaults document exactly
when its resolved node — after `$ref` substitution against the schema state
at the moment the property is processed — contributes: it is typed `null`,
or it has a basic type with an explicit non-null default, or it is typed
`object` and the defaults document recursively extracted from it is
non-empty.  Second part: on ref-free schemas (where every node resolves to
itself) the condition collapses to the declarative one — some occurrence of
the name among the properties has a node that contributes structurally
(type `null`, basic type with non-null default, or object with a
contributing child; in particular a null-typed descendant with no explicit
default anywhere makes the ancestor appear). -/
theorem claimC1 :
    (∀ (env : Env) (fuel : Nat) (name : String) (j jr : JsonVal)
      (rest : List (String × JsonVal)) (schema : JsonVal)
      (defs : List (String × JsonVal)) (found : Bool)
      (fd : List (String × JsonVal)) (ff : Bool) (s' : JsonVal),
      extractAux env (fuel + 1) (.loop ((name, j) :: rest) schema defs found) =
        some (.ok (fd, ff, s')) →
      resolveNode env schema j = .ok jr →
      name ∉ rest.map Prod.fst →
      lookupField defs name = none →
      ((lookupField fd name).isSome = true ↔ resolvedContributes env fuel schema jr)) ∧
    (∀ (env : Env) (fuel : Nat) (schema : JsonVal)
      (fd : List (String × JsonVal)) (ff : Bool) (s' : JsonVal),
      refFreeVal schema = true →
      extract_schema_defaults env fuel schema = some (.ok (fd, ff, s')) →
      ∀ name, (lookupField fd name).isSome = true ↔
        ∃ j, (name, j) ∈ children schema ∧ Contributes j) := by
  constructor
  · intro env fuel name j jr rest schema defs found fd ff s' h hres hn habs
    obtain ⟨fuel2, jr2, hfe, hres2, hbr⟩ := step_cases h
    obtain rfl : fuel = fuel2 := by omega
    obtain rfl : jr = jr2 := Except.ok.inj (hres.symm.trans hres2)
    rcases hbr with ⟨p, schema1, eds, de, schema2, hty1, hpi, hsi, hin, hcont⟩ |
      ⟨t, d, hty2, htb, hdef, hcont⟩ | ⟨hty3, hcont⟩ | ⟨et, het, ho, hbas, hnl, hcont⟩
    · -- object branch
      obtain ⟨f2, fields, hfe2, hpg, hloop⟩ := top_cases hin
      have hiff : de = true ↔ eds ≠ [] :=
        loop_found_iff env f2 fields schema1 [] false eds de schema2 hloop (by simp)
      rcases hcont with ⟨hde, hcont⟩ | ⟨hde, hcont⟩
      · -- recursive call found a default: entry present, condition holds
        have hL : (lookupField fd name).isSome = true := by
          rw [loop_preserve env fuel rest schema2 (dictSet defs name (.obj eds)) true
            fd ff s' name hcont hn, lookup_dictSet_self]
          rfl
        refine iff_of_true hL ?_
        simp only [resolvedContributes]
        exact Or.inr (Or.inr ⟨pyGet_type_str hty1,
          p, schema1, eds, de, schema2, hpi, hsi, hin, hiff.mp hde⟩)
      · -- recursive call found nothing: entry absent, condition fails
        have hL : lookupField fd name = none := by
          rw [loop_preserve env fuel rest schema2 defs found fd ff s' name hcont hn]
          exact habs
        refine iff_of_false (by rw [hL]; simp) ?_
        intro hcond
        simp only [resolvedContributes] at hcond
        rcases hcond with hnull | ⟨t, htt, htb, _⟩ |
          ⟨_, p', schema1', eds', de', s2', hpi', hsi', hin', hne'⟩
        · have := Except.ok.inj ((pyGet_type_of_getTypeStr hnull).symm.trans hty1)
          simp at this
        · have := Except.ok.inj ((pyGet_type_of_getTypeStr htt).symm.trans hty1)
          simp at this
          rw [this] at htb
          exact absurd htb (by decide)
        · obtain rfl : p' = p := Except.ok.inj (hpi'.symm.trans hpi)
          obtain rfl : schema1' = schema1 := Except.ok.inj (hsi'.symm.trans hsi)
          have htrip := hin.symm.trans hin'
          simp at htrip
          have heds : eds = [] := by
            rcases hx : eds with _ | _
            · rfl
            · have : de = true := hiff.mpr (by rw [hx]; simp)
              rw [hde] at this
              exact Bool.noConfusion this
          rw [← htrip.1, heds] at hne'
          exact hne' rfl
    · -- basic-type branch
      rcases hcont with ⟨hdn, hcont⟩ | ⟨hdn, hcont⟩
      · -- null-valued (or absent) default: entry absent, condition fails
        have hL : lookupField fd name = none := by
          rw [loop_preserve env fuel rest schema defs found fd ff s' name hcont hn]
          exact habs
        refine iff_of_false (by rw [hL]; simp) ?_
        intro hcond
        simp only [resolvedContributes] at hcond
        rcases hcond with hnull | ⟨t2, htt2, htb2, hed2⟩ | ⟨hto, _⟩
        · have := Except.ok.inj ((pyGet_type_of_getTypeStr hnull).symm.trans hty2)
          simp at this
          rw [← this] at htb
          exact absurd htb (by decide)
        · obtain ⟨d2, hdef2, hd2⟩ := hasExplicitDefault_pyGet hed2
          have hdd : d2 = d := Except.ok.inj (hdef2.symm.trans hdef)
          rw [hdd, hdn] at hd2
          exact hd2 rfl
        · have := Except.ok.inj ((pyGet_type_of_getTypeStr hto).symm.trans hty2)
          simp at this
          rw [← this] at htb
          exact absurd htb (by decide)
      · -- non-null default: entry present, condition holds
        have hL : (lookupField fd name).isSome = true := by
          rw [loop_preserve env fuel rest schema (dictSet defs name d) true
            fd ff s' name hcont hn, lookup_dictSet_self]
          rfl
        obtain ⟨jfs, hjobj⟩ := pyGet_ok_obj hty2
        have hed : hasExplicitDefault jr = true := by
          rw [hjobj]
          rw [hjobj] at hdef
          exact (pyGet_default_some hdef hdn).1
        refine iff_of_true hL ?_
        simp only [resolvedContributes]
        exact Or.inr (Or.inl ⟨t, pyGet_type_str hty2, htb, hed⟩)
    · -- null-type branch: entry present, condition holds
      have hL : (lookupField fd name).isSome = true := by
        rw [loop_preserve env fuel rest schema (dictSet defs name .null) true
          fd ff s' name hcont hn, lookup_dictSet_self]
        rfl
      refine iff_of_true hL ?_
      simp only [resolvedContributes]
      exact Or.inl (pyGet_type_str hty3)
    · -- unknown/missing type: entry absent, condition fails
      have hL : lookupField fd name = none := by
        rw [loop_preserve env fuel rest schema defs found fd ff s' name hcont hn]
        exact habs
      refine iff_of_false (by rw [hL]; simp) ?_
      intro hcond
      simp only [resolvedContributes] at hcond
      rcases hcond with hnull | ⟨t2, htt2, htb2, _⟩ | ⟨hto, _⟩
      · have het2 : et = .str "null" := getTypeStr_pyGet het hnull
        rw [het2] at hnl
        simp [isStrEq] at hnl
      · have het2 : et = .str t2 := getTypeStr_pyGet het htt2
        rw [het2] at hbas
        simp [(basic_cond_iff (.str t2)).mpr ⟨t2, rfl, htb2⟩] at hbas
      · have het2 : et = .str "object" := getTypeStr_pyGet het hto
        rw [het2] at ho
        simp [isStrEq] at ho
  · intro env fuel schema fd ff s' hrf h
    exact ((extract_refFree_char env fuel).2 schema fd ff s'
      (refFree_props_values hrf) h).1

/-- The witness schema for C1: the property `p` is a local reference
`#/definitions/N` to a null-typed definition, so the resolved node differs
from the property node itself. -/
def sC1w : JsonVal :=
  .obj [("definitions", .obj [("N", .obj [("type", .str "null")])]),
    ("properties", .obj [("p", .obj [("$ref", .str "#/definitions/N")])])]

/-- A witness run for the amended C1 on a `$ref`-bearing schema: `p`
resolves through `#/definitions/N` to a null-typed node and appears in the
defaults. -/
theorem claimC1_witness :
    (lookupField [("p", JsonVal.null)] "p").isSome = true ↔
      resolvedContributes envTriv 1 sC1w (.obj [("type", .str "null")]) :=
  claimC1.1 envTriv 1 "p" (.obj [("$ref", .str "#/definitions/N")])
    (.obj [("type", .str "null")]) [] sC1w [] false
    [("p", .null)] true sC1w rfl rfl (by simp) rfl

/-- The null-typed child of the C1 counterexample. -/
def bNodeC1 : JsonVal := .obj [("type", .str "null")]

/-- The object-typed property of the C1 counterexample: its only child is
typed `null` and nothing anywhere has an explicit default. -/
def aNodeC1 : JsonVal :=
  .obj [("type", .str "object"), ("properties", .obj [("b", bNodeC1)])]

/-- The C1 counterexample schema `{"properties": {"a": aNodeC1}}`. -/
def sC1 : JsonVal := .obj [("properties", .obj [("a", aNodeC1)])]

/-- Counterexample to C1 as stated: on `sC1` the extraction returns normally
with `a` present in the defaults (as `{"b": null}`), yet the claim's
membership condition fails for `a` — its resolved node (itself: there is no
`$ref`) is typed `object`, not `null`, and no descendant property carries an
explicit default; the only contributor is the null-typed descendant `b`,
which the claim's wording does not cover. -/
theorem claimC1cex :
    extract_schema_defaults envTriv 10 sC1 =
      some (.ok ([("a", .obj [("b", .null)])], true,
        .obj [("properties", .obj [("b", bNodeC1)])])) ∧
    resolveNode envTriv sC1 aNodeC1 = .ok aNodeC1 ∧
    (lookupField [("a", JsonVal.obj [("b", JsonVal.null)])] "a").isSome = true ∧
    ¬ ClaimC1cond aNodeC1 := by
  refine ⟨rfl, rfl, rfl, ?_⟩
  intro hcond
  have hty : getTypeStr aNodeC1 = some "object" := rfl
  have hch : children aNodeC1 = [("b", bNodeC1)] := rfl
  have hchb : children bNodeC1 = ([] : List (String × JsonVal)) := rfl
  rcases hcond with hnull | ⟨_, hd⟩ | ⟨hne, _⟩
  · rw [hty] at hnull
    exact absurd (Option.some.inj hnull) (by decide)
  · cases hd with
    | here _ name c hmem hdef =>
        rw [hch] at hmem
        simp at hmem
        rw [hmem.2] at hdef
        exact absurd hdef (by decide)
    | deeper _ name c hmem hd2 =>
        rw [hch] at hmem
        simp at hmem
        rw [hmem.2] at hd2
        cases hd2 with
        | here _ n2 c2 hmem2 hdef2 =>
            rw [hchb] at hmem2
            simp at hmem2
        | deeper _ n2 c2 hmem2 hx =>
            rw [hchb] at hmem2
            simp at hmem2
  · exact hne hty
